import Mathlib

/-!
Verification of the TooN `WLS` weighted-least-squares accumulator.

Shallow embedding of `src/3rdparty.old/TooN/wls.h` (class `TooN::WLS`).

The accumulator owns an `n × n` information matrix `my_C_inv`, a length-`n`
weighted-measurement vector `my_vector`, a decomposition object
`my_decomposition` and the solution vector `my_mu`.  The C++ `Precision`
type (`double` by default) is modelled by `ℚ`, i.e. exact arithmetic;
vectors of length `n` are `Fin n → ℚ` and matrices are Mathlib's
`Matrix (Fin n) (Fin k) ℚ`.

The TooN container headers (`TooN.h`, `helpers.h`) and the `Cholesky`
decomposition are not part of the sources, only `wls.h` is; where their
behaviour matters it is modelled from the specification and marked
`Modelled from the spec:` in the doc comment.
-/

namespace ToonWLS

/-- Modelled from the spec: the only locally relevant error kind of the TooN
container layer (`TooN.h` is not in the sources) is `DimensionMismatch`,
"raised when an input vector/matrix's size disagrees with the accumulator's
configured dimension `n`" — so the error type has that single value. -/
def ToonError : Type := Unit

/-- The `DimensionMismatch` error. -/
def ToonError.DimensionMismatch : ToonError := Unit.unit

/-- State of `TooN::WLS<Size, Precision, Decomposition>` for dimension `n`:

* `my_C_inv` — the accumulated inverse covariance (information) matrix;
* `my_vector` — the accumulated weighted measurement vector;
* `my_decomposition` — Modelled from the spec: the `Decomposition`
  collaborator (Cholesky by default; not in the sources) is "re-derived from
  `C_inv` on each `compute()` call" and "holds no state between calls other
  than what the last `compute()` produced", so its state is modelled as the
  matrix it was last computed from;
* `my_mu` — the stored solution of the normal equations. -/
structure WLS (n : ℕ) where
  my_C_inv : Matrix (Fin n) (Fin n) ℚ
  my_vector : Fin n → ℚ
  my_decomposition : Matrix (Fin n) (Fin n) ℚ
  my_mu : Fin n → ℚ

namespace WLS

variable {n : ℕ}

/-- `void clear()`: `my_C_inv = Zeros; my_vector = Zeros;`. -/
def clear (st : WLS n) : WLS n :=
  { st with my_C_inv := 0, my_vector := 0 }

/-- `WLS(int size=0)`: the constructor allocates `my_C_inv`, `my_vector`,
`my_decomposition` and `my_mu` (their contents indeterminate at that point,
modelled by the arbitrary argument `init`) and then calls `clear()`. -/
def construct (init : WLS n) : WLS n :=
  clear init

/-- `void add_prior(Precision val)`: the loop `my_C_inv(i,i) += val` over the
diagonal. -/
def add_prior (st : WLS n) (val : ℚ) : WLS n :=
  { st with
    my_C_inv := Matrix.of fun i j =>
      if i = j then st.my_C_inv i j + val else st.my_C_inv i j }

/-- `void add_prior(const Vector& v)` after the size check has passed:
the loop `my_C_inv(i,i) += v[i]` over the diagonal. -/
def add_prior_vec (st : WLS n) (v : Fin n → ℚ) : WLS n :=
  { st with
    my_C_inv := Matrix.of fun i j =>
      if i = j then st.my_C_inv i j + v i else st.my_C_inv i j }

/-- `void add_prior(const Matrix& m)`: `my_C_inv += m`. -/
def add_prior_mat (st : WLS n) (m : Matrix (Fin n) (Fin n) ℚ) : WLS n :=
  { st with my_C_inv := st.my_C_inv + m }

/-- `void add_mJ(Precision m, const Vector& J, Precision weight)` after the
container size checks have passed:
`Vector Jw = J*weight; my_C_inv += Jw.as_col() * J.as_row(); my_vector += m*Jw;`.
(The C++ default argument `weight = 1` is passed explicitly here.) -/
def add_mJ (st : WLS n) (m : ℚ) (J : Fin n → ℚ) (weight : ℚ) : WLS n :=
  let Jw : Fin n → ℚ := fun i => J i * weight
  { st with
    my_C_inv := st.my_C_inv + Matrix.of fun i j => Jw i * J j,
    my_vector := fun i => st.my_vector i + m * Jw i }

/-- Batched `void add_mJ(const Vector<N>& m, const Matrix<Size,N>& J,
const Matrix<N,N>& invcov)`:
`Matrix temp = J * invcov; my_C_inv += temp * J.T(); my_vector += temp * m;`. -/
def add_mJ_batch {k : ℕ} (st : WLS n) (m : Fin k → ℚ)
    (J : Matrix (Fin n) (Fin k) ℚ) (invcov : Matrix (Fin k) (Fin k) ℚ) : WLS n :=
  let temp : Matrix (Fin n) (Fin k) ℚ := J * invcov
  { st with
    my_C_inv := st.my_C_inv + temp * J.transpose,
    my_vector := st.my_vector + temp.mulVec m }

/-- Calling the single-measurement `add_mJ(m_i, J_i, w_i)` once per
measurement `i = 0, …, k-1`, where `J_i` is the `i`-th column of the
`n × k` Jacobian matrix `J` (the comparison side of the batched overload). -/
def add_mJ_seq {k : ℕ} (st : WLS n) (m : Fin k → ℚ)
    (J : Matrix (Fin n) (Fin k) ℚ) (w : Fin k → ℚ) : WLS n :=
  (List.finRange k).foldl (fun s i => s.add_mJ (m i) (fun r => J r i) (w i)) st

/-- `void operator += (const WLS& meas)`:
`my_vector += meas.my_vector; my_C_inv += meas.my_C_inv;`. -/
def merge (st meas : WLS n) : WLS n :=
  { st with
    my_vector := st.my_vector + meas.my_vector,
    my_C_inv := st.my_C_inv + meas.my_C_inv }

/-- `void compute()`: `my_decomposition.compute(my_C_inv);
my_mu = my_decomposition.backsub(my_vector);`.

Modelled from the spec: the `Decomposition` collaborator (Cholesky; not in
the sources) "factorizes the current information matrix" — its state becomes
a function of `my_C_inv` alone — and `backsub(vector) -> mu` solves against
that factorization; `backsub` is passed as an abstract solver so nothing is
assumed about it. -/
def compute (backsub : Matrix (Fin n) (Fin n) ℚ → (Fin n → ℚ) → Fin n → ℚ)
    (st : WLS n) : WLS n :=
  { st with
    my_decomposition := st.my_C_inv,
    my_mu := backsub st.my_C_inv st.my_vector }

/-- `void add_prior(const Vector& v)` for the dynamically sized case, with the
input vector carrying its own length: first
`SizeMismatch<Size,Size>::test(my_C_inv.num_rows(), v.size())` runs, then the
diagonal loop.  Modelled from the spec: `SizeMismatch::test` lives in the TooN
headers, which are not in the sources; per the spec it fails with a
`DimensionMismatch` error when the sizes disagree, "raised eagerly, before any
partial mutation of `C_inv`/`vector`". -/
def add_prior_vec_checked (st : WLS n) (v : List ℚ) :
    Except ToonError (WLS n) :=
  if n = v.length then
    Except.ok (add_prior_vec st fun i => v.getD i.val 0)
  else
    Except.error ToonError.DimensionMismatch

/-- Single-measurement `add_mJ` for the dynamically sized case, with the
Jacobian carrying its own length.  Modelled from the spec: `wls.h` itself has
no size check in this overload, but the container operations it invokes
(`Jw.as_col() * J.as_row()` added into the `n × n` matrix, from `TooN.h`,
which is not in the sources) fail with `DimensionMismatch` when
`J.size() != n`, "raised eagerly, before any partial mutation". -/
def add_mJ_checked (st : WLS n) (m : ℚ) (J : List ℚ) (weight : ℚ) :
    Except ToonError (WLS n) :=
  if n = J.length then
    Except.ok (add_mJ st m (fun i => J.getD i.val 0) weight)
  else
    Except.error ToonError.DimensionMismatch

end WLS

end ToonWLS

namespace ToonWLS

open WLS

/-- A concrete 2-dimensional accumulator state (with symmetric `my_C_inv`),
used to instantiate theorems with hypotheses. -/
def st0 : WLS 2 :=
  { my_C_inv := Matrix.of fun i j => (i.val : ℚ) + (j.val : ℚ)
    my_vector := fun i => (i.val : ℚ) + 1
    my_decomposition := 0
    my_mu := fun _ => 4 }

/-- A concrete measurement vector for a batch of two measurements. -/
def mv0 : Fin 2 → ℚ := fun i => (i.val : ℚ) + 2

/-- A concrete `2 × 2` Jacobian matrix. -/
def Jm0 : Matrix (Fin 2) (Fin 2) ℚ :=
  Matrix.of fun i j => (i.val : ℚ) - (j.val : ℚ) + 1

/-- C1: `add_mJ(m, J, w)` adds `w*J[i]*J[j]` to `C_inv[i][j]`, adds
`m*(J[i]*w)` to `vector[i]`, and changes nothing else of the state. -/
theorem add_mJ_spec {n : ℕ} (st : WLS n) (m : ℚ) (J : Fin n → ℚ) (w : ℚ) :
    (∀ i j, (st.add_mJ m J w).my_C_inv i j = st.my_C_inv i j + w * J i * J j)
    ∧ (∀ i, (st.add_mJ m J w).my_vector i = st.my_vector i + m * (J i * w))
    ∧ (st.add_mJ m J w).my_mu = st.my_mu
    ∧ (st.add_mJ m J w).my_decomposition = st.my_decomposition := by
  refine ⟨fun i j => ?_, fun i => ?_, rfl, rfl⟩
  · show st.my_C_inv i j + (J i * w) * J j = st.my_C_inv i j + w * J i * J j
    ring
  · rfl

/-- C4: a freshly constructed accumulator and a cleared accumulator (from any
state) have all-zero `C_inv` and all-zero `vector`; `clear` maps `WLS n` to
`WLS n`, so the dimension `n` is untouched. -/
theorem clear_spec {n : ℕ} (init st : WLS n) :
    (construct init).my_C_inv = 0 ∧ (construct init).my_vector = 0
    ∧ st.clear.my_C_inv = 0 ∧ st.clear.my_vector = 0 := by
  exact ⟨rfl, rfl, rfl, rfl⟩

/-- C10: a single-measurement update with weight zero leaves `C_inv` and
`vector` (and the rest of the state) exactly unchanged. -/
theorem add_mJ_zero_weight {n : ℕ} (st : WLS n) (m : ℚ) (J : Fin n → ℚ) :
    (st.add_mJ m J 0).my_C_inv = st.my_C_inv
    ∧ (st.add_mJ m J 0).my_vector = st.my_vector := by
  constructor
  · funext i j
    show st.my_C_inv i j + (J i * 0) * J j = st.my_C_inv i j
    ring
  · funext i
    show st.my_vector i + m * (J i * 0) = st.my_vector i
    ring

/-- C3: `operator+=` sums `C_inv` and `vector` component-wise, and merging an
accumulator holding measurements `{A, B}` with one holding `{C}` yields the
same `C_inv` and `vector` as accumulating `{A, B, C}` in one accumulator. -/
theorem merge_spec {n : ℕ} (a b s t : WLS n)
    (mA mB mC : ℚ) (JA JB JC : Fin n → ℚ) (wA wB wC : ℚ) :
    ((a.merge b).my_C_inv = a.my_C_inv + b.my_C_inv
      ∧ (a.merge b).my_vector = a.my_vector + b.my_vector)
    ∧ ((((s.clear.add_mJ mA JA wA).add_mJ mB JB wB).merge
          (t.clear.add_mJ mC JC wC)).my_C_inv
        = (((s.clear.add_mJ mA JA wA).add_mJ mB JB wB).add_mJ mC JC wC).my_C_inv
      ∧ (((s.clear.add_mJ mA JA wA).add_mJ mB JB wB).merge
          (t.clear.add_mJ mC JC wC)).my_vector
        = (((s.clear.add_mJ mA JA wA).add_mJ mB JB wB).add_mJ mC JC wC).my_vector) := by
  refine ⟨⟨rfl, rfl⟩, ?_, ?_⟩
  · funext i j
    show (0 + (JA i * wA) * JA j + (JB i * wB) * JB j)
          + (0 + (JC i * wC) * JC j)
        = 0 + (JA i * wA) * JA j + (JB i * wB) * JB j + (JC i * wC) * JC j
    ring
  · funext i
    show ((0 : Fin n → ℚ) i + mA * (JA i * wA) + mB * (JB i * wB))
          + ((0 : Fin n → ℚ) i + mC * (JC i * wC))
        = (0 : Fin n → ℚ) i + mA * (JA i * wA) + mB * (JB i * wB)
          + mC * (JC i * wC)
    simp only [Pi.zero_apply]
    ring

/-- C5: `add_prior(v)` with `v.size() != n` fails with `DimensionMismatch`
(no state is produced, so `C_inv` and `vector` are untouched: all-or-nothing);
with `v.size() == n` it returns a state whose `C_inv` got `v[i]` added at each
diagonal entry `(i,i)` and is otherwise unchanged, and whose `vector` and
`mu` are unchanged. -/
theorem add_prior_vec_checked_spec {n : ℕ} (st : WLS n) (v : List ℚ) :
    (v.length ≠ n → st.add_prior_vec_checked v
        = Except.error ToonError.DimensionMismatch)
    ∧ (v.length = n →
        ∃ st', st.add_prior_vec_checked v = Except.ok st'
          ∧ (∀ i, st'.my_C_inv i i = st.my_C_inv i i + v.getD i.val 0)
          ∧ (∀ i j, i ≠ j → st'.my_C_inv i j = st.my_C_inv i j)
          ∧ st'.my_vector = st.my_vector
          ∧ st'.my_mu = st.my_mu) := by
  constructor
  · intro hne
    unfold WLS.add_prior_vec_checked
    rw [if_neg (fun h => hne h.symm)]
  · intro heq
    refine ⟨st.add_prior_vec fun i => v.getD i.val 0, ?_, ?_, ?_, rfl, rfl⟩
    · unfold WLS.add_prior_vec_checked
      rw [if_pos heq.symm]
    · intro i
      show (if i = i then st.my_C_inv i i + v.getD i.val 0 else st.my_C_inv i i)
          = st.my_C_inv i i + v.getD i.val 0
      rw [if_pos rfl]
    · intro i j hij
      show (if i = j then st.my_C_inv i j + v.getD i.val 0 else st.my_C_inv i j)
          = st.my_C_inv i j
      rw [if_neg hij]

/-- Witness for C5: on a 2-dimensional accumulator, a length-3 prior vector is
rejected with `DimensionMismatch`, and a length-2 prior vector is accepted and
updates exactly the diagonal. -/
theorem add_prior_vec_checked_spec_witness :
    (([1, 2, 3] : List ℚ).length ≠ 2
      ∧ st0.add_prior_vec_checked [1, 2, 3]
          = Except.error ToonError.DimensionMismatch)
    ∧ (([5, 7] : List ℚ).length = 2
      ∧ ∃ st', st0.add_prior_vec_checked [5, 7] = Except.ok st'
          ∧ (∀ i, st'.my_C_inv i i
              = st0.my_C_inv i i + ([5, 7] : List ℚ).getD i.val 0)
          ∧ (∀ i j, i ≠ j → st'.my_C_inv i j = st0.my_C_inv i j)
          ∧ st'.my_vector = st0.my_vector
          ∧ st'.my_mu = st0.my_mu) :=
  ⟨⟨by decide, (add_prior_vec_checked_spec st0 [1, 2, 3]).1 (by decide)⟩,
   ⟨by decide, (add_prior_vec_checked_spec st0 [5, 7]).2 (by decide)⟩⟩

/-- C6: single-measurement `add_mJ` with `J.size() != n` fails with
`DimensionMismatch` and produces no mutated state, so `C_inv` and `vector`
are left unchanged. -/
theorem add_mJ_checked_mismatch {n : ℕ} (st : WLS n) (m : ℚ) (J : List ℚ)
    (w : ℚ) (hne : J.length ≠ n) :
    st.add_mJ_checked m J w = Except.error ToonError.DimensionMismatch := by
  unfold WLS.add_mJ_checked
  rw [if_neg (fun h => hne h.symm)]

/-- Witness for C6: on a 2-dimensional accumulator, a length-1 Jacobian is
rejected with `DimensionMismatch`. -/
theorem add_mJ_checked_mismatch_witness :
    (([9] : List ℚ).length ≠ 2
      ∧ st0.add_mJ_checked 3 [9] 1 = Except.error ToonError.DimensionMismatch) :=
  ⟨by decide, add_mJ_checked_mismatch st0 3 [9] 1 (by decide)⟩

/-- C7: `compute()` leaves `C_inv` and `vector` unchanged and only stores
`mu = backsub(C_inv, vector)` (and the decomposition of `C_inv`); iterating
`compute()` `k+1` times in a row equals calling it once, and an `add_mJ`
after `compute()` starts from the same accumulated statistics. -/
theorem compute_spec {n : ℕ}
    (backsub : Matrix (Fin n) (Fin n) ℚ → (Fin n → ℚ) → Fin n → ℚ)
    (st : WLS n) (m : ℚ) (J : Fin n → ℚ) (w : ℚ) :
    (st.compute backsub).my_C_inv = st.my_C_inv
    ∧ (st.compute backsub).my_vector = st.my_vector
    ∧ (st.compute backsub).my_mu = backsub st.my_C_inv st.my_vector
    ∧ (∀ k : ℕ, (WLS.compute backsub)^[k + 1] st = st.compute backsub)
    ∧ ((st.compute backsub).add_mJ m J w).my_C_inv = (st.add_mJ m J w).my_C_inv
    ∧ ((st.compute backsub).add_mJ m J w).my_vector
        = (st.add_mJ m J w).my_vector := by
  refine ⟨rfl, rfl, rfl, ?_, rfl, rfl⟩
  intro k
  have hfix : ∀ j : ℕ,
      (WLS.compute backsub)^[j] (st.compute backsub) = st.compute backsub := by
    intro j
    induction j with
    | zero => rfl
    | succ j ih =>
        rw [Function.iterate_succ_apply' (WLS.compute backsub) j
            (st.compute backsub), ih]
        rfl
  rw [Function.iterate_succ_apply (WLS.compute backsub) k st]
  exact hfix k

/-- Helper: a fold of single-measurement updates adds the sum of the rank-1
outer-product contributions to `my_C_inv`. -/
theorem foldl_add_mJ_C_inv {n k : ℕ} (m : Fin k → ℚ)
    (J : Matrix (Fin n) (Fin k) ℚ) (w : Fin k → ℚ) (l : List (Fin k)) :
    ∀ st : WLS n,
      (l.foldl (fun s i => s.add_mJ (m i) (fun r => J r i) (w i)) st).my_C_inv
        = st.my_C_inv
          + (l.map fun i => Matrix.of fun r c => (J r i * w i) * J c i).sum := by
  induction l with
  | nil => intro st; simp
  | cons i l ih =>
      intro st
      rw [List.foldl_cons, ih, List.map_cons, List.sum_cons]
      show st.my_C_inv + Matrix.of (fun r c => (J r i * w i) * J c i)
            + (l.map fun i => Matrix.of fun r c => (J r i * w i) * J c i).sum
          = _
      rw [add_assoc]

/-- Helper: a fold of single-measurement updates adds the sum of the weighted
Jacobian-column contributions to `my_vector`. -/
theorem foldl_add_mJ_vector {n k : ℕ} (m : Fin k → ℚ)
    (J : Matrix (Fin n) (Fin k) ℚ) (w : Fin k → ℚ) (l : List (Fin k)) :
    ∀ st : WLS n,
      (l.foldl (fun s i => s.add_mJ (m i) (fun r => J r i) (w i)) st).my_vector
        = st.my_vector + (l.map fun i => fun r => m i * (J r i * w i)).sum := by
  induction l with
  | nil => intro st; simp
  | cons i l ih =>
      intro st
      rw [List.foldl_cons, ih, List.map_cons, List.sum_cons]
      show (st.my_vector + fun r => m i * (J r i * w i))
            + (l.map fun i => fun r => m i * (J r i * w i)).sum
          = _
      rw [add_assoc]

/-- C2: one measurement at a time versus the batched overload with a diagonal
inverse covariance: folding `add_mJ(m_i, J_i, w_i)` over the `k` measurements
produces the same `C_inv` and `vector` as one batched
`add_mJ(m, J, diagonal w)`. -/
theorem add_mJ_seq_eq_batch {n k : ℕ} (st : WLS n) (m : Fin k → ℚ)
    (J : Matrix (Fin n) (Fin k) ℚ) (w : Fin k → ℚ) :
    (st.add_mJ_seq m J w).my_C_inv
        = (st.add_mJ_batch m J (Matrix.diagonal w)).my_C_inv
    ∧ (st.add_mJ_seq m J w).my_vector
        = (st.add_mJ_batch m J (Matrix.diagonal w)).my_vector := by
  constructor
  · rw [show (st.add_mJ_seq m J w).my_C_inv
        = st.my_C_inv
          + ((List.finRange k).map
              fun i => Matrix.of fun r c => (J r i * w i) * J c i).sum
      from foldl_add_mJ_C_inv m J w (List.finRange k) st]
    show _ = st.my_C_inv + (J * Matrix.diagonal w) * J.transpose
    congr 1
    rw [← Fin.sum_univ_def fun i => Matrix.of fun r c => (J r i * w i) * J c i]
    ext r c
    rw [Matrix.sum_apply, Matrix.mul_apply]
    refine Finset.sum_congr rfl fun x _ => ?_
    rw [Matrix.transpose_apply, Matrix.mul_diagonal]
    show (J r x * w x) * J c x = (J r x * w x) * J c x
    rfl
  · rw [show (st.add_mJ_seq m J w).my_vector
        = st.my_vector
          + ((List.finRange k).map fun i => fun r => m i * (J r i * w i)).sum
      from foldl_add_mJ_vector m J w (List.finRange k) st]
    show _ = st.my_vector + (J * Matrix.diagonal w).mulVec m
    congr 1
    rw [← Fin.sum_univ_def fun i => fun r => m i * (J r i * w i)]
    funext r
    rw [Finset.sum_apply]
    show _ = Finset.univ.sum fun x => (J * Matrix.diagonal w) r x * m x
    refine Finset.sum_congr rfl fun x _ => ?_
    rw [Matrix.mul_diagonal]
    ring

/-- C8: `my_C_inv` is symmetric after construction and `clear()`, and every
mutating operation (scalar/vector/matrix `add_prior` with a symmetric matrix
argument, scalar `add_mJ`, batched `add_mJ` with symmetric `invcov`, and the
merge operator on two accumulators with symmetric `my_C_inv`) preserves its
symmetry. -/
theorem C_inv_symm {n k : ℕ} (init st a b : WLS n) (val : ℚ) (v : Fin n → ℚ)
    (mp : Matrix (Fin n) (Fin n) ℚ) (m : ℚ) (J : Fin n → ℚ) (w : ℚ)
    (mv : Fin k → ℚ) (Jm : Matrix (Fin n) (Fin k) ℚ)
    (invcov : Matrix (Fin k) (Fin k) ℚ) :
    (construct init).my_C_inv.IsSymm
    ∧ st.clear.my_C_inv.IsSymm
    ∧ (st.my_C_inv.IsSymm → (st.add_prior val).my_C_inv.IsSymm)
    ∧ (st.my_C_inv.IsSymm → (st.add_prior_vec v).my_C_inv.IsSymm)
    ∧ (st.my_C_inv.IsSymm → mp.IsSymm → (st.add_prior_mat mp).my_C_inv.IsSymm)
    ∧ (st.my_C_inv.IsSymm → (st.add_mJ m J w).my_C_inv.IsSymm)
    ∧ (st.my_C_inv.IsSymm → invcov.IsSymm →
        (st.add_mJ_batch mv Jm invcov).my_C_inv.IsSymm)
    ∧ (a.my_C_inv.IsSymm → b.my_C_inv.IsSymm → (a.merge b).my_C_inv.IsSymm) := by
  refine ⟨Matrix.isSymm_zero, Matrix.isSymm_zero, ?_, ?_, ?_, ?_, ?_, ?_⟩
  · intro h
    refine Matrix.IsSymm.ext fun i j => ?_
    show (if j = i then st.my_C_inv j i + val else st.my_C_inv j i)
        = (if i = j then st.my_C_inv i j + val else st.my_C_inv i j)
    by_cases hij : i = j
    · subst hij; rfl
    · rw [if_neg (fun hji => hij hji.symm), if_neg hij, h.apply i j]
  · intro h
    refine Matrix.IsSymm.ext fun i j => ?_
    show (if j = i then st.my_C_inv j i + v j else st.my_C_inv j i)
        = (if i = j then st.my_C_inv i j + v i else st.my_C_inv i j)
    by_cases hij : i = j
    · subst hij; rfl
    · rw [if_neg (fun hji => hij hji.symm), if_neg hij, h.apply i j]
  · intro h hm
    exact Matrix.IsSymm.add h hm
  · intro h
    refine Matrix.IsSymm.add h (Matrix.IsSymm.ext fun i j => ?_)
    show (J j * w) * J i = (J i * w) * J j
    ring
  · intro h hic
    refine Matrix.IsSymm.add h ?_
    show ((Jm * invcov) * Jm.transpose).transpose = (Jm * invcov) * Jm.transpose
    rw [Matrix.transpose_mul, Matrix.transpose_mul, Matrix.transpose_transpose,
      hic.eq, ← Matrix.mul_assoc]
  · intro ha hb
    exact Matrix.IsSymm.add ha hb

/-- Witness for C8: symmetry is preserved on a concrete 2-dimensional
accumulator through each operation with a hypothesis. -/
theorem C_inv_symm_witness :
    (st0.add_prior 5).my_C_inv.IsSymm
    ∧ (st0.add_prior_vec fun _ => 3).my_C_inv.IsSymm
    ∧ (st0.add_prior_mat 1).my_C_inv.IsSymm
    ∧ (st0.add_mJ 3 (fun i => (i.val : ℚ)) 2).my_C_inv.IsSymm
    ∧ (st0.add_mJ_batch mv0 Jm0 (Matrix.diagonal fun _ => 2)).my_C_inv.IsSymm
    ∧ (st0.merge st0).my_C_inv.IsSymm := by
  have h := C_inv_symm st0 st0 st0 st0 5 (fun _ => 3) 1 3 (fun i => (i.val : ℚ))
    2 mv0 Jm0 (Matrix.diagonal fun _ => 2)
  have hs : st0.my_C_inv.IsSymm := Matrix.IsSymm.ext fun i j => add_comm _ _
  exact ⟨h.2.2.1 hs, h.2.2.2.1 hs,
    h.2.2.2.2.1 hs Matrix.isSymm_one, h.2.2.2.2.2.1 hs,
    h.2.2.2.2.2.2.1 hs (Matrix.isSymm_diagonal fun _ => 2),
    h.2.2.2.2.2.2.2 hs hs⟩

/-- C9: `clear()` zeroes `C_inv` and `vector` but does not touch `my_mu`:
after a `compute()` the cleared accumulator still reports the stale solution
`backsub(C_inv, vector)`, and in general `clear` preserves `my_mu`. -/
theorem clear_preserves_mu {n : ℕ}
    (backsub : Matrix (Fin n) (Fin n) ℚ → (Fin n → ℚ) → Fin n → ℚ)
    (st t : WLS n) :
    ((st.compute backsub).clear).my_mu = backsub st.my_C_inv st.my_vector
    ∧ ((st.compute backsub).clear).my_C_inv = 0
    ∧ ((st.compute backsub).clear).my_vector = 0
    ∧ t.clear.my_mu = t.my_mu :=
  ⟨rfl, rfl, rfl, rfl⟩

end ToonWLS
